import Mathlib

/-!
# Verification of the AI Topic & Content Generator (`app.py`)

Shallow embedding of the repository's single source file `app.py`
(a Streamlit content-generation pipeline over the OpenRouter
chat-completion API), together with proofs about the embedded
definitions.

Modelling conventions:
* Python strings are modelled as Lean `String` / `List Char`; the
  Python per-character classification functions (`str.isdigit`,
  `str.isalnum`, `str.lower`, whitespace) are modelled by Lean's ASCII
  `Char` predicates.
* `str.split()` (whitespace tokenisation) is `wtoks`; `str.strip()` is
  `pystripChars`; `str.splitlines()` followed by the blank filter of the
  list comprehension is modelled by splitting on `'\n'`/`'\r'` followed
  by the same blank filter (the two agree on every string once blank
  pieces are discarded).
* The network is modelled by an `HttpResponse` value per request: its
  HTTP status, raw body text, and the parsed
  `choices[0].message.content` field when present (`none` models a body
  from which that field cannot be extracted, i.e. the
  `KeyError`/`IndexError` path).  Each call of `call_openrouter`
  consumes exactly one such response, mirroring the single
  `requests.post` round-trip of the source.
* A Python exception is modelled by the `Except.error` constructor
  carrying `str(e)`; the `try/except` blocks of the per-topic loop
  become a `match` on that value.
-/

namespace YT

/-! ## Character-list helpers (Python string primitives) -/

/-- Model of Python `str.split()`: the maximal runs of non-whitespace
characters, i.e. split at every whitespace character and discard the
empty pieces. -/
def wtoks (l : List Char) : List (List Char) :=
  (l.splitOnP Char.isWhitespace).filter (fun t => !t.isEmpty)

/-- Model of Python `str.strip()`: drop leading and trailing whitespace. -/
def pystripChars (l : List Char) : List Char :=
  ((l.dropWhile Char.isWhitespace).reverse.dropWhile Char.isWhitespace).reverse

/-- Model of Python `str.strip()` on `String`. -/
def pystrip (s : String) : String :=
  String.mk (pystripChars s.data)

/-- A line-break character for the purposes of `str.splitlines()`.
Splitting on these characters (`List.splitOnP isLineBreak`), followed
by the comprehension's blank filter, agrees with Python
`str.splitlines()` followed by the same filter. -/
def isLineBreak (c : Char) : Bool :=
  c = '\n' || c = '\r'

/-- A line is non-blank when it contains a non-whitespace character
(Python: `line.strip()` is truthy). -/
def nonBlankL (l : List Char) : Bool :=
  l.any (fun c => !c.isWhitespace)

/-! ## Source helpers (`app.py` lines 46–52) -/

/-- `app.py` line 46–47:
`"".join(c if c.isalnum() else "-" for c in text.lower()).strip("-")`.
Per-character step: lower-case, keep alphanumerics, replace everything
else with a hyphen. -/
def slugChar (c : Char) : Char :=
  if c.toLower.isAlphanum then c.toLower else '-'

/-- Python `str.strip("-")`: drop leading and trailing hyphens. -/
def stripHyphens (l : List Char) : List Char :=
  ((l.dropWhile (· = '-')).reverse.dropWhile (· = '-')).reverse

/-- `app.py` `slugify`. -/
def slugify (text : String) : String :=
  String.mk (stripHyphens (text.data.map slugChar))

/-- `app.py` lines 50–52:
`words = text.split(); return " ".join(words[:word_target]) if len(words) > word_target else text`. -/
def approx_trim (text : String) (word_target : Nat) : String :=
  let words := wtoks text.data
  if words.length > word_target then
    String.mk (List.intercalate [' '] (words.take word_target))
  else text

/-! ## The completion client (`app.py` lines 28–43) -/

/-- One HTTP response from the completion endpoint, as far as
`call_openrouter` inspects it: the status code, the raw body text, and
the parsed `choices[0].message.content` field when the body yields one
(`none` models the `KeyError`/`IndexError` path of
`data["choices"][0]["message"]["content"]`). -/
structure HttpResponse where
  status : Nat
  text : String
  content? : Option String
deriving DecidableEq, Repr

instance {ε α : Type} [DecidableEq ε] [DecidableEq α] : DecidableEq (Except ε α) :=
  fun x y =>
  match x, y with
  | .ok a, .ok b =>
    if h : a = b then .isTrue (by rw [h]) else .isFalse (by intro he; cases he; exact h rfl)
  | .ok _, .error _ => .isFalse (by intro he; cases he)
  | .error _, .ok _ => .isFalse (by intro he; cases he)
  | .error e, .error f =>
    if h : e = f then .isTrue (by rw [h]) else .isFalse (by intro he; cases he; exact h rfl)

/-- `app.py` `call_openrouter`: raise on a non-200 status (message
`f"OpenRouter API error {resp.status_code}: {resp.text}"`), raise when
the expected response fields are absent, otherwise return the stripped
content.  Exactly one response is consumed per call. -/
def call_openrouter (resp : HttpResponse) : Except String String :=
  if resp.status ≠ 200 then
    .error ("OpenRouter API error " ++ toString resp.status ++ ": " ++ resp.text)
  else
    match resp.content? with
    | none => .error "KeyError: missing choices[0].message.content"
    | some c => .ok (pystrip c)

/-! ## Topic-list parsing (`app.py` line 93) -/

/-- Characters strictly after the first `'.'`, if the list contains
one. -/
def afterFirstDot : List Char → Option (List Char)
  | [] => none
  | c :: cs => if c = '.' then some cs else afterFirstDot cs

/-- Whether Python `line[0].isdigit()` holds (on the nonempty lines the
comprehension keeps). -/
def headIsDigit (l : List Char) : Bool :=
  match l.head? with
  | some c => c.isDigit
  | none => false

/-- One line of the topic-list comprehension, `app.py` line 93:
`line.split(".", 1)[-1].strip() if line[0].isdigit() else line`.
`split(".", 1)[-1]` is everything after the first `'.'`, or the whole
line when it has no `'.'`. -/
def parseLine (l : List Char) : List Char :=
  if headIsDigit l then pystripChars ((afterFirstDot l).getD l) else l

/-- `app.py` line 93, whole comprehension: split the raw response into
lines, keep the non-blank ones, parse each. -/
def parseTopics (raw : String) : List String :=
  (((raw.data.splitOnP isLineBreak).filter nonBlankL).map parseLine).map String.mk

/-! ## The per-topic generation loop (`app.py` lines 97–115) -/

/-- One generated topic entry (`entry` dict of the loop body). -/
structure TopicRecord where
  topic : String
  script : String
  seo : String
  thumbnails : String
deriving DecidableEq, Repr

/-- The three HTTP responses the per-topic loop consumes for one topic:
script, SEO and thumbnail calls, in program order. -/
structure TopicResponses where
  scriptR : HttpResponse
  seoR : HttpResponse
  thumbR : HttpResponse
deriving DecidableEq, Repr

/-- One `try/except` block of the loop: on success post-process the
returned text, on failure store `f"[Error: {e}]"`. -/
def tryCall (resp : HttpResponse) (post : String → String) : String :=
  match call_openrouter resp with
  | .ok s => post s
  | .error e => "[Error: " ++ e ++ "]"

/-- Loop body for one topic (`app.py` lines 98–113). -/
def genEntry (t : String) (words : Nat) (r : TopicResponses) : TopicRecord :=
  { topic := t
    script := tryCall r.scriptR (fun s => approx_trim s words)
    seo := tryCall r.seoR id
    thumbnails := tryCall r.thumbR id }

/-- The whole loop (`app.py` lines 97–115): process the topics in
order; the `i`-th topic consumes the responses `oracle i`. -/
def genTopics (words : Nat) (oracle : Nat → TopicResponses) :
    Nat → List String → List TopicRecord
  | _, [] => []
  | i, t :: ts => genEntry t words (oracle i) :: genTopics words oracle (i + 1) ts

/-! ## The run gate and full pipeline (`app.py` lines 87–115) -/

/-- The `output` dict (`app.py` line 89 and the loop). -/
structure GenerationResult where
  niche : String
  generated_at : String
  topics : List TopicRecord
deriving DecidableEq, Repr

/-- `app.py` lines 87–115.  `none` models the run gate
(`if run_btn and niche and api_key:`) suppressing execution;
`some (.error e)` models an exception escaping the guarded block;
`some (.ok r)` models a completed generation run.  `topicsResp` is the
response to the initial topic-list call (line 92, not inside any
`try/except`), `oracle i` the responses to the three calls for the
`i`-th topic. -/
def runPipeline (run_btn : Bool) (niche api_key : String)
    (num_topics words : Nat) (generated_at : String)
    (topicsResp : HttpResponse) (oracle : Nat → TopicResponses) :
    Option (Except String GenerationResult) :=
  if run_btn = true ∧ niche ≠ "" ∧ api_key ≠ "" then
    some (
      match call_openrouter topicsResp with
      | .error e => .error e
      | .ok raw =>
        let topics := (parseTopics raw).take num_topics
        .ok { niche := niche
              generated_at := generated_at
              topics := genTopics words oracle 0 topics })
  else
    none

/-! ## Field selectors for the three per-topic calls -/

/-- The three completion calls of the loop body, in program order. -/
inductive CallKind
  | script
  | seo
  | thumbnails
deriving DecidableEq, Repr

/-- The response a given call of the loop body consumes. -/
def respOf (r : TopicResponses) : CallKind → HttpResponse
  | .script => r.scriptR
  | .seo => r.seoR
  | .thumbnails => r.thumbR

/-- The record field a given call of the loop body fills. -/
def fieldOf (rec : TopicRecord) : CallKind → String
  | .script => rec.script
  | .seo => rec.seo
  | .thumbnails => rec.thumbnails

/-- The post-processing each call applies on success: the script call
trims to the word target, the other two store the text as returned. -/
def postOf (words : Nat) : CallKind → String → String
  | .script => fun s => approx_trim s words
  | .seo => id
  | .thumbnails => id

/-- `l` begins with `p` (on character lists). -/
def beginsWith (p l : List Char) : Prop :=
  l.take p.length = p

instance (p l : List Char) : Decidable (beginsWith p l) :=
  inferInstanceAs (Decidable (l.take p.length = p))

/-! ## Claim-side formulations of the line parser

Two further line parsers, written from the words of the specification
rather than from the source, to be compared with `parseLine`. -/

/-- Remove a leading numeric `"N."` prefix — a nonempty run of digits
followed by a `'.'` — when the line has one; otherwise leave the line
unchanged.  Written from the spec's words "stripping a leading `N.`
numeric prefix". -/
def stripNumDot (l : List Char) : List Char :=
  let ds := l.takeWhile Char.isDigit
  let rest := l.drop ds.length
  if ds ≠ [] ∧ rest.head? = some '.' then rest.tail else l

/-- The spec's reading of line parsing: a kept line whose first
character is a digit has exactly its leading `"N."` numeric prefix
stripped (and, charitably, surrounding whitespace removed, matching the
spec's own example `"1. Foo" ↦ "Foo"`); any other kept line is
preserved verbatim. -/
def parseLineNumSpec (l : List Char) : List Char :=
  if headIsDigit l then pystripChars (stripNumDot l) else l

/-- An independent formulation of the code's digit branch: split the
line at every `'.'`, drop the first piece and re-join the remaining
pieces with `'.'` (the whole line when it has no `'.'`), then strip
whitespace.  Used to restate what `parseLine` does without its
first-dot recursion. -/
def parseLineAlt (l : List Char) : List Char :=
  if headIsDigit l then
    match l.splitOn '.' with
    | [] => []
    | [x] => pystripChars x
    | _ :: rest => pystripChars (List.intercalate ['.'] rest)
  else l

/-! ## Pipeline B: the ScoreEngine

The repository snapshot under verification contains only `app.py`
(Pipeline A); the topic-finder script of Pipeline B is not among the
source files, so its scoring step is modelled from the specification. -/

/-- Modelled from the spec: one raw search result of the video-search
endpoint — `title`, optional `viewCount.text`, optional `duration`
(§6). -/
structure RawVideo where
  title : String
  viewText : Option String
  duration : Option String
deriving DecidableEq, Repr

/-- Modelled from the spec: a scored video (§3 data model). -/
structure VideoCandidate where
  title : String
  views : Nat
  duration : String
  ctrScore : Nat
  avdScore : Nat
  totalScore : Nat
deriving DecidableEq, Repr

/-- Modelled from the spec: view-count extraction (§4.6) — strip the
`" views"` suffix and thousands separators, default 0 when absent or
unparseable.  Here: drop commas, read the leading digit run. -/
def parseViews : Option String → Nat
  | none => 0
  | some s =>
    ((s.data.filter (fun c => c ≠ ',')).takeWhile Char.isDigit).foldl
      (fun n c => 10 * n + (c.toNat - 48)) 0

/-- Modelled from the spec: the ScoreEngine of Pipeline B (§4.6), whose
source file is not in the repository snapshot.
`ctrScore = wordCount(title) + uniformRandomInt(1,5)`;
`avdScore = count of ':'-delimited duration segments` (duration
defaults to `"0:00"` when absent);
`totalScore = ctrScore + avdScore`.  The random jitter is passed in as
the parameter `jitter` (§9 asks for an injected random source). -/
def scoreVideo (jitter : Nat) (v : RawVideo) : VideoCandidate :=
  let dur := v.duration.getD "0:00"
  let ctr := (wtoks v.title.data).length + jitter
  let avd := (dur.data.splitOn ':').length
  { title := v.title
    views := parseViews v.viewText
    duration := dur
    ctrScore := ctr
    avdScore := avd
    totalScore := ctr + avd }

/-! ## Concrete fixtures used by witnesses -/

/-- A 200 response whose body parses to content `s`. -/
def okResp (s : String) : HttpResponse :=
  { status := 200, text := s, content? := some s }

/-- A failing (HTTP 500) response. -/
def errResp : HttpResponse :=
  { status := 500, text := "boom", content? := none }

/-- Three successful per-topic responses. -/
def goodResponses : TopicResponses :=
  { scriptR := okResp "alpha beta gamma delta"
    seoR := okResp "seo pack"
    thumbR := okResp "thumb prompts" }

/-- Per-topic responses whose script call fails. -/
def badScriptResponses : TopicResponses :=
  { scriptR := errResp
    seoR := okResp "seo pack"
    thumbR := okResp "thumb prompts" }

/-- A concrete raw search result. -/
def sampleVideo : RawVideo :=
  { title := "Top 10 cat videos"
    viewText := some "1,234 views"
    duration := some "10:05" }

/-! ## Character classification lemmas -/

lemma toNat_ofNat_valid {n : Nat} (h : Nat.isValidChar n) : (Char.ofNat n).toNat = n := by
  simp only [Char.ofNat, dif_pos h, Char.ofNatAux, Char.toNat, UInt32.toNat]
  simp

lemma isUpper_iff (c : Char) : c.isUpper = true ↔ 65 ≤ c.toNat ∧ c.toNat ≤ 90 := by
  simp [Char.isUpper, UInt32.le_def, BitVec.le_def, Char.toNat, UInt32.toNat]

lemma isLower_iff (c : Char) : c.isLower = true ↔ 97 ≤ c.toNat ∧ c.toNat ≤ 122 := by
  simp [Char.isLower, UInt32.le_def, BitVec.le_def, Char.toNat, UInt32.toNat]

lemma isDigit_iff (c : Char) : c.isDigit = true ↔ 48 ≤ c.toNat ∧ c.toNat ≤ 57 := by
  simp [Char.isDigit, UInt32.le_def, BitVec.le_def, Char.toNat, UInt32.toNat]

lemma isAlphanum_iff (c : Char) : c.isAlphanum = true ↔
    (65 ≤ c.toNat ∧ c.toNat ≤ 90) ∨ (97 ≤ c.toNat ∧ c.toNat ≤ 122) ∨
    (48 ≤ c.toNat ∧ c.toNat ≤ 57) := by
  simp [Char.isAlphanum, Char.isAlpha, isUpper_iff, isLower_iff, isDigit_iff]
  tauto

lemma toLower_isAlphanum (c : Char) : c.toLower.isAlphanum = c.isAlphanum := by
  unfold Char.toLower
  simp only []
  by_cases h : c.toNat ≥ 65 ∧ c.toNat ≤ 90
  · rw [if_pos h]
    obtain ⟨h1, h2⟩ := h
    have hv : Nat.isValidChar (c.toNat + 32) := by left; omega
    have ht : (Char.ofNat (c.toNat + 32)).toNat = c.toNat + 32 := toNat_ofNat_valid hv
    have hl : (Char.ofNat (c.toNat + 32)).isAlphanum = true := by
      rw [isAlphanum_iff, ht]; omega
    have hr : c.isAlphanum = true := by
      rw [isAlphanum_iff]; omega
    rw [hl, hr]
  · rw [if_neg h]

lemma toLower_not_upper (c : Char) : c.toLower.isUpper = false := by
  unfold Char.toLower
  simp only []
  by_cases h : c.toNat ≥ 65 ∧ c.toNat ≤ 90
  · rw [if_pos h]
    obtain ⟨h1, h2⟩ := h
    have hv : Nat.isValidChar (c.toNat + 32) := by left; omega
    have ht : (Char.ofNat (c.toNat + 32)).toNat = c.toNat + 32 := toNat_ofNat_valid hv
    rw [← Bool.not_eq_true, isUpper_iff, ht]
    omega
  · rw [if_neg h, ← Bool.not_eq_true, isUpper_iff]
    omega

/-- Each character `slugChar` produces is a hyphen or a non-upper-case
alphanumeric character. -/
lemma slugChar_cases (c : Char) :
    slugChar c = '-' ∨ ((slugChar c).isAlphanum = true ∧ (slugChar c).isUpper = false) := by
  unfold slugChar
  by_cases h : c.toLower.isAlphanum = true
  · right
    rw [if_pos h]
    exact ⟨h, toLower_not_upper c⟩
  · left
    rw [if_neg h]

/-- `slugChar` hits `'-'` exactly on the non-alphanumeric characters. -/
lemma slugChar_eq_hyphen_iff (c : Char) : slugChar c = '-' ↔ c.isAlphanum = false := by
  unfold slugChar
  by_cases h : c.toLower.isAlphanum = true
  · rw [if_pos h]
    rw [toLower_isAlphanum] at h
    constructor
    · intro he
      have : ('-' : Char).isAlphanum = true := by
        rw [← he, toLower_isAlphanum, h]
      simp at this
    · intro hc
      rw [hc] at h
      cases h
  · rw [if_neg h]
    rw [toLower_isAlphanum] at h
    simp at h
    simp [h]

/-! ## dropWhile / strip lemmas -/

lemma dropWhile_head?_not {α : Type} (p : α → Bool) (l : List α) {a : α}
    (h : (l.dropWhile p).head? = some a) : p a = false := by
  induction l with
  | nil => simp [List.dropWhile] at h
  | cons x xs ih =>
    by_cases hx : p x
    · rw [List.dropWhile_cons_of_pos hx] at h
      exact ih h
    · rw [List.dropWhile_cons_of_neg hx] at h
      simp at h
      subst h
      simpa using hx

lemma mem_stripHyphens {a : Char} {l : List Char} (h : a ∈ stripHyphens l) : a ∈ l := by
  unfold stripHyphens at h
  rw [List.mem_reverse] at h
  have h2 : a ∈ (l.dropWhile (· = '-')).reverse := List.dropWhile_subset (· = '-') h
  rw [List.mem_reverse] at h2
  exact List.dropWhile_subset (· = '-') h2

lemma stripHyphens_head?_ne (l : List Char) {a : Char}
    (h : (stripHyphens l).head? = some a) : a ≠ '-' := by
  unfold stripHyphens at h
  rw [List.head?_reverse] at h
  have hsuff : ((l.dropWhile (· = '-')).reverse.dropWhile (· = '-')) <:+
      (l.dropWhile (· = '-')).reverse := List.dropWhile_suffix _
  obtain ⟨w, hw⟩ := hsuff
  have h2 : ((l.dropWhile (· = '-')).reverse).getLast? = some a := by
    rw [← hw, List.getLast?_append, h]
    rfl
  rw [List.getLast?_reverse] at h2
  have h3 := dropWhile_head?_not (· = '-') l h2
  simpa using h3

lemma stripHyphens_getLast?_ne (l : List Char) {a : Char}
    (h : (stripHyphens l).getLast? = some a) : a ≠ '-' := by
  unfold stripHyphens at h
  rw [List.getLast?_reverse] at h
  have h3 := dropWhile_head?_not (· = '-') _ h
  simpa using h3

lemma stripHyphens_eq_nil_iff (l : List Char) :
    stripHyphens l = [] ↔ ∀ a ∈ l, a = '-' := by
  unfold stripHyphens
  rw [List.reverse_eq_nil_iff, List.dropWhile_eq_nil_iff]
  constructor
  · intro h a ha
    have hTD : l.takeWhile (· = '-') ++ l.dropWhile (· = '-') = l := by simp
    rcases List.mem_append.1 (by rw [hTD]; exact ha) with hm | hm
    · have := List.mem_takeWhile_imp hm
      simpa using this
    · have := h a (by rwa [List.mem_reverse])
      simpa using this
  · intro h a ha
    rw [List.mem_reverse] at ha
    have := h a (List.dropWhile_subset (· = '-') ha)
    simpa using this

/-- String-level bridge: `String.mk l` is empty iff `l` is. -/
lemma mk_eq_empty_iff (l : List Char) : String.mk l = "" ↔ l = [] := by
  constructor
  · intro h
    have := congrArg String.data h
    simpa using this
  · intro h
    rw [h]

/-- C5: the slug contains only lower-case alphanumerics and hyphens,
never starts or ends with a hyphen, and is empty exactly when the input
has no alphanumeric character. -/
theorem slugify_safe (t : String) :
    (∀ c ∈ (slugify t).data, c = '-' ∨ (c.isAlphanum = true ∧ c.isUpper = false)) ∧
    (slugify t).data.head? ≠ some '-' ∧
    (slugify t).data.getLast? ≠ some '-' ∧
    (slugify t = "" ↔ ∀ c ∈ t.data, c.isAlphanum = false) := by
  refine ⟨?_, ?_, ?_, ?_⟩
  · intro c hc
    have h1 : c ∈ t.data.map slugChar := mem_stripHyphens hc
    obtain ⟨d, _, rfl⟩ := List.mem_map.1 h1
    exact slugChar_cases d
  · intro h
    exact stripHyphens_head?_ne _ h rfl
  · intro h
    exact stripHyphens_getLast?_ne _ h rfl
  · unfold slugify
    rw [mk_eq_empty_iff, stripHyphens_eq_nil_iff]
    constructor
    · intro h c hc
      have := h (slugChar c) (List.mem_map_of_mem slugChar hc)
      exact (slugChar_eq_hyphen_iff c).1 this
    · intro h a ha
      obtain ⟨d, hd, rfl⟩ := List.mem_map.1 ha
      exact (slugChar_eq_hyphen_iff d).2 (h d hd)

/-- C5 witness: concrete evaluation of the slug properties. -/
theorem slugify_safe_witness :
    ('f' ∈ (slugify "Fitness 4 Beginners!").data → ('f' = '-' ∨ ('f'.isAlphanum = true ∧ 'f'.isUpper = false))) ∧
    (slugify "Fitness 4 Beginners!").data.head? ≠ some '-' ∧
    (slugify "Fitness 4 Beginners!").data.getLast? ≠ some '-' ∧
    (slugify "!!!" = "" ↔ ∀ c ∈ ("!!!" : String).data, c.isAlphanum = false) :=
  ⟨fun h => (slugify_safe "Fitness 4 Beginners!").1 'f' h,
   (slugify_safe "Fitness 4 Beginners!").2.1,
   (slugify_safe "Fitness 4 Beginners!").2.2.1,
   (slugify_safe "!!!").2.2.2⟩

/-! ## The completion client contract (C7) -/

/-- C7: `call_openrouter` fails exactly when the HTTP status is not 200
(the error carrying the status code and raw body) or the
`choices[0].message.content` field is absent; on success it returns
that content with surrounding whitespace trimmed.  The model consumes
exactly one `HttpResponse` per call, mirroring the single
`requests.post` of the source. -/
theorem call_openrouter_contract (r : HttpResponse) :
    ((call_openrouter r).isOk = true ↔ (r.status = 200 ∧ r.content?.isSome = true)) ∧
    (r.status ≠ 200 →
      call_openrouter r =
        .error ("OpenRouter API error " ++ toString r.status ++ ": " ++ r.text)) ∧
    (∀ c, r.status = 200 → r.content? = some c →
      call_openrouter r = .ok (pystrip c)) := by
  refine ⟨?_, ?_, ?_⟩
  · by_cases h : r.status = 200
    · cases hc : r.content? with
      | none => simp [call_openrouter, h, hc, Except.isOk, Except.toBool]
      | some c => simp [call_openrouter, h, hc, Except.isOk, Except.toBool]
    · simp [call_openrouter, h, Except.isOk, Except.toBool]
  · intro h
    simp [call_openrouter, h]
  · intro c h hc
    simp [call_openrouter, h, hc]

/-- C7 witness: the contract evaluated on concrete responses. -/
theorem call_openrouter_contract_witness :
    call_openrouter { status := 404, text := "gone", content? := none } =
      .error "OpenRouter API error 404: gone" ∧
    call_openrouter { status := 200, text := "", content? := some " hi " } = .ok "hi" :=
  ⟨(call_openrouter_contract _).2.1 (by decide),
   by
    have h := (call_openrouter_contract { status := 200, text := "", content? := some " hi " }).2.2
      " hi " rfl rfl
    rw [h]
    rfl⟩

/-! ## Tokenisation lemmas (`wtoks`) -/

/-- Every piece produced by `splitOnP p` is free of elements
satisfying `p`. -/
lemma splitOnP_pieces {α : Type} (p : α → Bool) (l : List α) :
    ∀ t ∈ l.splitOnP p, ∀ c ∈ t, p c = false := by
  induction l with
  | nil =>
    intro t ht
    simp at ht
    simp [ht]
  | cons x xs ih =>
    rw [List.splitOnP_cons]
    by_cases h : p x
    · rw [if_pos h]
      intro t ht
      rcases List.mem_cons.1 ht with rfl | ht'
      · simp
      · exact ih t ht'
    · rw [if_neg h]
      rcases hs : xs.splitOnP p with _ | ⟨h0, rest⟩
      · exact absurd hs (List.splitOnP_ne_nil p xs)
      · intro t ht
        simp only [List.modifyHead] at ht
        rcases List.mem_cons.1 ht with rfl | ht'
        · intro c hc
          rcases List.mem_cons.1 hc with rfl | hc'
          · simpa using h
          · exact ih h0 (by simp [hs]) c hc'
        · exact ih t (by rw [hs]; exact List.mem_cons_of_mem _ ht')

/-- Every token `wtoks` produces is nonempty and whitespace-free. -/
lemma wtoks_tokens (l : List Char) :
    ∀ t ∈ wtoks l, t ≠ [] ∧ ∀ c ∈ t, c.isWhitespace = false := by
  intro t ht
  unfold wtoks at ht
  have hmem := List.mem_of_mem_filter ht
  have hne := List.of_mem_filter ht
  refine ⟨by simpa using hne, splitOnP_pieces _ l t hmem⟩

/-- Tokenising a single-space-joined list of nonempty whitespace-free
tokens recovers the tokens. -/
lemma wtoks_intercalate (ts : List (List Char))
    (h : ∀ t ∈ ts, t ≠ [] ∧ ∀ c ∈ t, c.isWhitespace = false) :
    wtoks (List.intercalate [' '] ts) = ts := by
  induction ts with
  | nil => simp [List.intercalate, wtoks]
  | cons a ts' ih =>
    have ha := h a (by simp)
    cases ts' with
    | nil =>
      have h1 : List.intercalate [' '] [a] = a := by
        simp [List.intercalate]
      unfold wtoks
      rw [h1, List.splitOnP_eq_single _ _ (fun x hx => by simp [ha.2 x hx])]
      simp [List.isEmpty_iff, ha.1]
    | cons b ts'' =>
      have hstep : List.intercalate [' '] (a :: b :: ts'') =
          a ++ ' ' :: List.intercalate [' '] (b :: ts'') := by
        simp [List.intercalate, List.intersperse_cons_cons]
      unfold wtoks at ih ⊢
      rw [hstep,
        List.splitOnP_first _ a (fun x hx => by simp [ha.2 x hx]) ' ' (by decide) _,
        List.filter_cons]
      have hkeep : (!a.isEmpty) = true := by
        simp [List.isEmpty_iff, ha.1]
      rw [if_pos hkeep, ih (fun t htm => h t (by simp [htm]))]

/-- The trimmed script never has more than `n` tokens: in the trimming
branch exactly `n` remain, otherwise the original count was already
`≤ n`. -/
lemma approx_trim_le (text : String) (n : Nat) :
    (wtoks (approx_trim text n).data).length ≤ n := by
  unfold approx_trim
  by_cases h : (wtoks text.data).length > n
  · rw [if_pos h]
    have hts := wtoks_tokens text.data
    have hroundtrip : wtoks (List.intercalate [' '] ((wtoks text.data).take n)) =
        (wtoks text.data).take n :=
      wtoks_intercalate _ (fun t ht => hts t (List.take_subset n _ ht))
    simp only [String.data]
    rw [hroundtrip]
    simp [List.length_take]
  · rw [if_neg h]
    omega

/-- C4: when the text has more than `n` whitespace-delimited tokens,
`approx_trim` returns exactly the first `n` tokens joined by single
spaces (so tokenising the result yields exactly those `n` tokens);
otherwise the text is returned unchanged. -/
theorem approx_trim_spec (text : String) (n : Nat) :
    ((wtoks text.data).length ≤ n → approx_trim text n = text) ∧
    ((wtoks text.data).length > n →
      approx_trim text n = String.mk (List.intercalate [' '] ((wtoks text.data).take n)) ∧
      wtoks (approx_trim text n).data = (wtoks text.data).take n ∧
      (wtoks (approx_trim text n).data).length = n) := by
  constructor
  · intro h
    unfold approx_trim
    rw [if_neg (by omega)]
  · intro h
    have heq : approx_trim text n =
        String.mk (List.intercalate [' '] ((wtoks text.data).take n)) := by
      unfold approx_trim
      rw [if_pos h]
    refine ⟨heq, ?_, ?_⟩
    · rw [heq]
      have hts := wtoks_tokens text.data
      exact wtoks_intercalate _ (fun t ht => hts t (List.take_subset n _ ht))
    · rw [heq]
      have hts := wtoks_tokens text.data
      rw [wtoks_intercalate _ (fun t ht => hts t (List.take_subset n _ ht))]
      simp [List.length_take]
      omega

/-- C4 witness: concrete evaluations of both branches. -/
theorem approx_trim_spec_witness :
    approx_trim "a b c d e" 3 = "a b c" ∧ approx_trim "a b" 3 = "a b" :=
  ⟨by
    have h := (approx_trim_spec "a b c d e" 3).2 (by decide)
    rw [h.1]
    rfl,
   (approx_trim_spec "a b" 3).1 (by decide)⟩

/-! ## Line-parsing lemmas (C3) -/

lemma afterFirstDot_eq_none (l : List Char) (h : '.' ∉ l) : afterFirstDot l = none := by
  induction l with
  | nil => rfl
  | cons c cs ih =>
    have hc : c ≠ '.' := fun he => h (by simp [he])
    unfold afterFirstDot
    rw [if_neg (fun he => hc he)]
    exact ih (fun hm => h (by simp [hm]))

lemma afterFirstDot_append (pre post : List Char) (h : '.' ∉ pre) :
    afterFirstDot (pre ++ '.' :: post) = some post := by
  induction pre with
  | nil => simp [afterFirstDot]
  | cons c cs ih =>
    have hc : c ≠ '.' := fun he => h (by simp [he])
    rw [List.cons_append]
    unfold afterFirstDot
    rw [if_neg (fun he => hc he)]
    exact ih (fun hm => h (by simp [hm]))

/-- Decompose a list at its first `'.'`. -/
lemma first_dot_decomp (l : List Char) (h : '.' ∈ l) :
    ∃ pre post, l = pre ++ '.' :: post ∧ '.' ∉ pre := by
  refine ⟨l.takeWhile (fun c => c != '.'), (l.dropWhile (fun c => c != '.')).tail, ?_, ?_⟩
  · have hne : l.dropWhile (fun c => c != '.') ≠ [] := by
      rw [Ne, List.dropWhile_eq_nil_iff]
      intro hall
      have := hall '.' h
      simp at this
    rcases hd : l.dropWhile (fun c => c != '.') with _ | ⟨a, rest⟩
    · exact absurd hd hne
    · have ha : a = '.' := by
        have := dropWhile_head?_not (fun c => c != '.') l (by rw [hd]; rfl)
        simpa using this
      subst ha
      have hTD : l.takeWhile (fun c => c != '.') ++ l.dropWhile (fun c => c != '.') = l := by
        simp
      conv_lhs => rw [← hTD]
      rw [hd]
      rfl
  · intro hm
    have := List.mem_takeWhile_imp hm
    simp at this

/-- The code's `split(".", 1)[-1]` expressed through `splitOn`. -/
lemma afterFirstDot_splitOn (l : List Char) :
    (afterFirstDot l).getD l =
      match l.splitOn '.' with
      | [] => l
      | [x] => x
      | _ :: rest => List.intercalate ['.'] rest := by
  by_cases h : '.' ∈ l
  · obtain ⟨pre, post, rfl, hpre⟩ := first_dot_decomp l h
    rw [afterFirstDot_append pre post hpre]
    have hsplit : (pre ++ '.' :: post).splitOn '.' = pre :: post.splitOn '.' := by
      unfold List.splitOn
      exact List.splitOnP_first _ pre (fun x hx => by simp; exact fun he => hpre (he ▸ hx))
        '.' (by simp) post
    rw [hsplit]
    rcases hp : post.splitOn '.' with _ | ⟨y, rest⟩
    · exact absurd hp (List.splitOnP_ne_nil _ post)
    · have : List.intercalate ['.'] (post.splitOn '.') = post :=
        List.intercalate_splitOn post '.'
      rw [hp] at this
      simp only []
      rw [this]
      rfl
  · rw [afterFirstDot_eq_none l h]
    rw [List.splitOn, List.splitOnP_eq_single]
    · rfl
    · intro x hx
      simp
      exact fun he => h (he ▸ hx)

/-- The code's line parser coincides with the split-and-rejoin
formulation `parseLineAlt`. -/
lemma parseLine_eq_alt (l : List Char) : parseLine l = parseLineAlt l := by
  unfold parseLine parseLineAlt
  by_cases h : headIsDigit l = true
  · rw [if_pos h, if_pos h]
    rw [afterFirstDot_splitOn l]
    rcases hs : l.splitOn '.' with _ | ⟨x, rest⟩
    · exact absurd hs (List.splitOnP_ne_nil _ l)
    · rcases rest with _ | ⟨y, rest'⟩ <;> rfl
  · rw [if_neg h, if_neg h]

/-- C3 counterexample: on the kept line `"1 dog. cat"` (first character
a digit, but no numeric `"N."` prefix) the code removes everything up to
the first `'.'` and yields `"cat"`, while the claim's
numeric-prefix-stripping reading leaves the line unchanged. -/
theorem parse_line_num_cex :
    parseLine "1 dog. cat".data = "cat".data ∧
    parseLineNumSpec "1 dog. cat".data = "1 dog. cat".data ∧
    parseLine "1 dog. cat".data ≠ parseLineNumSpec "1 dog. cat".data := by
  decide

/-- C3 (amended): blank lines are discarded; a kept line whose first
character is a digit is replaced by what follows its first `'.'`
(re-joined when the line has several dots, the whole line when it has
none), stripped of surrounding whitespace; every other kept line is
kept verbatim; the example `"1. Foo\n2. Bar\n\n3. Baz"` parses to
`["Foo", "Bar", "Baz"]`. -/
theorem parse_topics_amended (raw : String) :
    parseTopics raw =
      (((raw.data.splitOnP isLineBreak).filter nonBlankL).map parseLineAlt).map String.mk ∧
    parseTopics "1. Foo\n2. Bar\n\n3. Baz" = ["Foo", "Bar", "Baz"] := by
  constructor
  · unfold parseTopics
    congr 1
    exact List.map_congr_left (fun a _ => parseLine_eq_alt a)
  · decide

/-- C3 witness: the amended characterisation evaluated on a concrete
multi-line response. -/
theorem parse_topics_amended_witness :
    parseTopics "7 a.b c\nplain" =
      (((("7 a.b c\nplain" : String).data.splitOnP isLineBreak).filter nonBlankL).map
        parseLineAlt).map String.mk :=
  (parse_topics_amended "7 a.b c\nplain").1

/-! ## Generation-loop lemmas -/

lemma genTopics_getElem? (words : Nat) (o : Nat → TopicResponses) (i j : Nat)
    (ts : List String) :
    (genTopics words o i ts)[j]? = ts[j]?.map (fun t => genEntry t words (o (i + j))) := by
  induction ts generalizing i j with
  | nil => simp [genTopics]
  | cons t ts ih =>
    cases j with
    | zero => simp [genTopics]
    | succ j =>
      have harith : i + 1 + j = i + (j + 1) := by omega
      simp [genTopics, ih (i + 1) j, harith]

lemma genTopics_length (words : Nat) (o : Nat → TopicResponses) (i : Nat)
    (ts : List String) : (genTopics words o i ts).length = ts.length := by
  induction ts generalizing i with
  | nil => rfl
  | cons t ts ih => simp [genTopics, ih]

lemma genTopics_map_topic (words : Nat) (o : Nat → TopicResponses) (i : Nat)
    (ts : List String) :
    (genTopics words o i ts).map (fun rec => rec.topic) = ts := by
  induction ts generalizing i with
  | nil => rfl
  | cons t ts ih => simp [genTopics, genEntry, ih]

lemma fieldOf_genEntry (t : String) (words : Nat) (r : TopicResponses) (k : CallKind) :
    fieldOf (genEntry t words r) k = tryCall (respOf r k) (postOf words k) := by
  cases k <;> rfl

/-! ## C1: per-call failure isolation -/

/-- C1: in the per-topic loop, when exactly one completion call fails
(the call of kind `k` for topic `j`) and every other response is
unchanged, the failing field of topic `j` becomes
`"[Error: <message>]"`, the other two fields of topic `j` and its topic
string are exactly as in the run where that call succeeded, and every
other topic's record is unchanged. -/
theorem per_call_failure_isolated
    (topics : List String) (words : Nat) (o o' : Nat → TopicResponses)
    (j : Nat) (k : CallKind) (e : String)
    (hOther : ∀ i, i ≠ j → o i = o' i)
    (hSame : ∀ k', k' ≠ k → respOf (o j) k' = respOf (o' j) k')
    (hFail : call_openrouter (respOf (o j) k) = .error e) :
    (∀ i, i ≠ j →
      (genTopics words o 0 topics)[i]? = (genTopics words o' 0 topics)[i]?) ∧
    (∀ rj rj', (genTopics words o 0 topics)[j]? = some rj →
      (genTopics words o' 0 topics)[j]? = some rj' →
      fieldOf rj k = "[Error: " ++ e ++ "]" ∧
      rj.topic = rj'.topic ∧
      ∀ k', k' ≠ k → fieldOf rj k' = fieldOf rj' k') := by
  constructor
  · intro i hi
    rw [genTopics_getElem?, genTopics_getElem?]
    simp only [Nat.zero_add]
    rw [hOther i hi]
  · intro rj rj' hj hj'
    rw [genTopics_getElem?] at hj hj'
    simp only [Nat.zero_add] at hj hj'
    cases ht : topics[j]? with
    | none =>
      rw [ht] at hj
      simp at hj
    | some t =>
      rw [ht] at hj hj'
      simp at hj hj'
      subst hj
      subst hj'
      refine ⟨?_, rfl, ?_⟩
      · rw [fieldOf_genEntry]
        unfold tryCall
        rw [hFail]
      · intro k' hk'
        rw [fieldOf_genEntry, fieldOf_genEntry, hSame k' hk']

/-- C1 witness: two topics, the script call of topic 1 failing; topic 0
is untouched and topic 1 keeps its SEO/thumbnail fields. -/
theorem per_call_failure_isolated_witness :
    ((genTopics 3 (fun n => if n = 1 then badScriptResponses else goodResponses) 0
        ["A", "B"])[0]? =
      (genTopics 3 (fun _ => goodResponses) 0 ["A", "B"])[0]?) ∧
    (∃ rj rj',
      (genTopics 3 (fun n => if n = 1 then badScriptResponses else goodResponses) 0
          ["A", "B"])[1]? = some rj ∧
      (genTopics 3 (fun _ => goodResponses) 0 ["A", "B"])[1]? = some rj' ∧
      fieldOf rj .script = "[Error: OpenRouter API error 500: boom]" ∧
      rj.topic = rj'.topic ∧
      fieldOf rj .seo = fieldOf rj' .seo ∧
      fieldOf rj .thumbnails = fieldOf rj' .thumbnails) := by
  have h := per_call_failure_isolated ["A", "B"] 3
    (fun n => if n = 1 then badScriptResponses else goodResponses)
    (fun _ => goodResponses) 1 .script "OpenRouter API error 500: boom"
    (fun i hi => by simp [hi])
    (fun k' hk' => by
      cases k' with
      | script => exact absurd rfl hk'
      | seo => rfl
      | thumbnails => rfl)
    (by decide)
  obtain ⟨rj, hrj⟩ : ∃ rj,
      (genTopics 3 (fun n => if n = 1 then badScriptResponses else goodResponses) 0
        ["A", "B"])[1]? = some rj := ⟨_, rfl⟩
  obtain ⟨rj', hrj'⟩ : ∃ rj',
      (genTopics 3 (fun _ => goodResponses) 0 ["A", "B"])[1]? = some rj' := ⟨_, rfl⟩
  have h2 := h.2 rj rj' hrj hrj'
  exact ⟨h.1 0 (by decide), rj, rj', hrj, hrj', h2.1, h2.2.1,
    h2.2.2 .seo (by decide), h2.2.2 .thumbnails (by decide)⟩

/-! ## C9: script length bound or error placeholder -/

lemma beginsWith_error_marker (e : String) :
    beginsWith "[Error:".data ("[Error: " ++ e ++ "]").data := by
  unfold beginsWith
  have hdata : ("[Error: " ++ e ++ "]").data =
      "[Error:".data ++ (' ' :: (e.data ++ "]".data)) := by
    rw [String.data_append, String.data_append]
    rfl
  rw [hdata]
  exact List.take_left ..

/-- C9: every script field of a generated record either holds at most
`words` whitespace-delimited tokens or begins with `"[Error:"`; and the
error placeholder is not trimmed, so it can exceed the word target
(here: target 1, placeholder of 6 tokens). -/
theorem script_trimmed_or_error (topics : List String) (words : Nat)
    (o : Nat → TopicResponses) (i : Nat) :
    (∀ rec ∈ genTopics words o i topics,
      (wtoks rec.script.data).length ≤ words ∨
      beginsWith "[Error:".data rec.script.data) ∧
    ((wtoks (genEntry "T" 1 badScriptResponses).script.data).length > 1 ∧
      beginsWith "[Error:".data (genEntry "T" 1 badScriptResponses).script.data) := by
  constructor
  · intro rec hrec
    induction topics generalizing i with
    | nil => simp [genTopics] at hrec
    | cons t ts ih =>
      rcases List.mem_cons.1 hrec with rfl | h'
      · have hs : (genEntry t words (o i)).script =
            tryCall (o i).scriptR (fun s => approx_trim s words) := rfl
        rw [hs]
        unfold tryCall
        cases hc : call_openrouter (o i).scriptR with
        | ok s => exact Or.inl (approx_trim_le s words)
        | error e => exact Or.inr (beginsWith_error_marker e)
      · exact ih (i + 1) h'
  · exact ⟨by decide, by decide⟩

/-- C9 witness: the bound evaluated on a concrete run with one
successful over-long script and one failing script call. -/
theorem script_trimmed_or_error_witness :
    ∀ rec ∈ genTopics 2 (fun n => if n = 0 then goodResponses else badScriptResponses) 0
      ["A", "B"],
      (wtoks rec.script.data).length ≤ 2 ∨ beginsWith "[Error:".data rec.script.data :=
  (script_trimmed_or_error ["A", "B"] 2
    (fun n => if n = 0 then goodResponses else badScriptResponses) 0).1

/-! ## C10: order preservation of topics -/

/-- C10: the records of a completed run list, in order, exactly the
parsed forms of the non-blank lines of the raw topic-list response
(truncated to the requested count): mapping each record to its topic
field recovers that list. -/
theorem topics_order (niche api_key : String) (nt words : Nat) (ts : String)
    (tresp : HttpResponse) (o : Nat → TopicResponses) (raw : String)
    (hok : call_openrouter tresp = .ok raw) (hn : niche ≠ "") (hk : api_key ≠ "") :
    ∃ r, runPipeline true niche api_key nt words ts tresp o = some (.ok r) ∧
      r.topics.map (fun rec => rec.topic) =
        ((((raw.data.splitOnP isLineBreak).filter nonBlankL).map parseLine).map
          String.mk).take nt := by
  unfold runPipeline
  rw [if_pos ⟨rfl, hn, hk⟩, hok]
  refine ⟨_, rfl, ?_⟩
  rw [genTopics_map_topic]
  rfl

/-- C10 witness: concrete order-preservation check. -/
theorem topics_order_witness :
    ∃ r, runPipeline true "fitness" "key" 5 300 "now" (okResp "1. Foo\nBar baz")
        (fun _ => goodResponses) = some (.ok r) ∧
      r.topics.map (fun rec => rec.topic) =
        ((((("1. Foo\nBar baz" : String).data.splitOnP isLineBreak).filter
          nonBlankL).map parseLine).map String.mk).take 5 :=
  topics_order "fitness" "key" 5 300 "now" (okResp "1. Foo\nBar baz")
    (fun _ => goodResponses) "1. Foo\nBar baz" rfl (by decide) (by decide)

/-! ## C6: truncation to the requested count -/

/-- C6: a completed run has at most `nt` topic records; when the parsed
upstream list is no longer than `nt`, all of it is kept — a short list
is a degraded result, not an error. -/
theorem topics_truncated (niche api_key : String) (nt words : Nat) (ts : String)
    (tresp : HttpResponse) (o : Nat → TopicResponses) (raw : String)
    (hok : call_openrouter tresp = .ok raw) (hn : niche ≠ "") (hk : api_key ≠ "") :
    ∃ r, runPipeline true niche api_key nt words ts tresp o = some (.ok r) ∧
      r.topics.length ≤ nt ∧
      ((parseTopics raw).length ≤ nt → r.topics.length = (parseTopics raw).length) := by
  unfold runPipeline
  rw [if_pos ⟨rfl, hn, hk⟩, hok]
  refine ⟨_, rfl, ?_, ?_⟩
  · rw [genTopics_length]
    simp [List.length_take]
  · intro hle
    rw [genTopics_length]
    simp [List.length_take]
    omega

/-- C6 witness: an upstream list of two entries against a request for
five topics yields exactly two records. -/
theorem topics_truncated_witness :
    ∃ r, runPipeline true "fitness" "key" 5 300 "now" (okResp "1. Foo\n2. Bar")
        (fun _ => goodResponses) = some (.ok r) ∧
      r.topics.length ≤ 5 ∧
      ((parseTopics "1. Foo\n2. Bar").length ≤ 5 →
        r.topics.length = (parseTopics "1. Foo\n2. Bar").length) :=
  topics_truncated "fitness" "key" 5 300 "now" (okResp "1. Foo\n2. Bar")
    (fun _ => goodResponses) "1. Foo\n2. Bar" rfl (by decide) (by decide)

/-! ## C2: which failures escape the pipeline -/

/-- C2 counterexample: with niche and credential both present, a non-200
response to the initial topic-list call (line 92, outside every
`try/except`) escapes the pipeline as an uncaught exception — the run
produces an error, not a `GenerationResult`, refuting the claim that
only missing inputs can prevent a result. -/
theorem topic_list_failure_escapes_cex :
    runPipeline true "fitness" "key" 5 300 "now" errResp (fun _ => goodResponses) =
      some (.error "OpenRouter API error 500: boom") ∧
    ("fitness" : String) ≠ "" ∧ ("key" : String) ≠ "" := by
  constructor
  · rfl
  · exact ⟨by decide, by decide⟩

/-- C2 (amended): missing run inputs suppress execution without
raising; no failure of the three per-topic calls ever escapes — with a
successful topic-list call the pipeline always completes, whatever the
per-topic responses; but a failure of the initial topic-list call
itself escapes as an exception. -/
theorem run_gate_amended (run_btn : Bool) (niche api_key : String)
    (nt words : Nat) (ts : String) (tresp : HttpResponse)
    (o : Nat → TopicResponses) :
    (¬(run_btn = true ∧ niche ≠ "" ∧ api_key ≠ "") →
      runPipeline run_btn niche api_key nt words ts tresp o = none) ∧
    (∀ e, call_openrouter tresp = .error e →
      run_btn = true → niche ≠ "" → api_key ≠ "" →
      runPipeline run_btn niche api_key nt words ts tresp o = some (.error e)) ∧
    (∀ raw, call_openrouter tresp = .ok raw →
      run_btn = true → niche ≠ "" → api_key ≠ "" →
      ∃ r, runPipeline run_btn niche api_key nt words ts tresp o = some (.ok r)) := by
  refine ⟨?_, ?_, ?_⟩
  · intro h
    unfold runPipeline
    rw [if_neg h]
  · intro e he hb hn hk
    subst hb
    unfold runPipeline
    rw [if_pos ⟨rfl, hn, hk⟩, he]
  · intro raw hok hb hn hk
    subst hb
    unfold runPipeline
    rw [if_pos ⟨rfl, hn, hk⟩, hok]
    exact ⟨_, rfl⟩

/-- C2 witness: the amended behaviour on concrete inputs — a suppressed
run (empty credential), an escaping topic-list failure, and a completed
run despite a failing per-topic script call. -/
theorem run_gate_amended_witness :
    runPipeline true "fitness" "" 5 300 "now" errResp (fun _ => goodResponses) = none ∧
    runPipeline true "fitness" "key" 5 300 "now" errResp (fun _ => goodResponses) =
      some (.error "OpenRouter API error 500: boom") ∧
    (∃ r, runPipeline true "fitness" "key" 5 300 "now" (okResp "1. Foo")
      (fun _ => badScriptResponses) = some (.ok r)) :=
  ⟨(run_gate_amended true "fitness" "" 5 300 "now" errResp (fun _ => goodResponses)).1
      (by intro h; exact h.2.2 rfl),
   (run_gate_amended true "fitness" "key" 5 300 "now" errResp
      (fun _ => goodResponses)).2.1 "OpenRouter API error 500: boom" rfl rfl
      (by decide) (by decide),
   (run_gate_amended true "fitness" "key" 5 300 "now" (okResp "1. Foo")
      (fun _ => badScriptResponses)).2.2 "1. Foo" rfl rfl (by decide) (by decide)⟩

/-! ## C8: score invariant of the (spec-modelled) ScoreEngine -/

/-- C8: for every video scored by the ScoreEngine (modelled from the
spec; Pipeline B's source file is not in the repository snapshot) with
a jitter drawn from 1..5, `totalScore = ctrScore + avdScore` holds
exactly, with `ctrScore` the title word count plus the jitter and
`avdScore` the number of `':'`-delimited duration segments. -/
theorem score_invariant (jitter : Nat) (v : RawVideo)
    (h1 : 1 ≤ jitter) (h5 : jitter ≤ 5) :
    (scoreVideo jitter v).totalScore =
      (scoreVideo jitter v).ctrScore + (scoreVideo jitter v).avdScore ∧
    (scoreVideo jitter v).ctrScore = (wtoks v.title.data).length + jitter ∧
    (scoreVideo jitter v).avdScore = ((v.duration.getD "0:00").data.splitOn ':').length :=
  ⟨rfl, rfl, rfl⟩

/-- C8 witness: the invariant on a concrete candidate. -/
theorem score_invariant_witness :
    (scoreVideo 3 sampleVideo).totalScore =
      (scoreVideo 3 sampleVideo).ctrScore + (scoreVideo 3 sampleVideo).avdScore :=
  (score_invariant 3 sampleVideo (by decide) (by decide)).1

end YT
